import Mathlib

/-!
# Verification of the quantum-circuit simulation core (bloch-verse)

Shallow embedding of the density-matrix simulator in
`src/unnamed/part_000` (the fuller of the two near-duplicate revisions;
`src/src/utils/quantumSimulation.ts` is the other).  JavaScript numbers
are modelled by the real numbers `ℝ`; matrices are row-major
`List (List ℝ)` exactly as in the source.  An out-of-range array read,
which in JavaScript yields `undefined` and turns subsequent arithmetic
into `NaN`, is modelled as reading `0` (the real numbers have no `NaN`);
no theorem below relies on the value of an out-of-range read except where
explicitly noted.
-/

noncomputable section

namespace QuantumSim

/-- Row-major matrix of JS numbers, `number[][]` in the source. -/
abbrev Mat := List (List ℝ)

/-- Entry read `M[i][j]`, with out-of-range reads modelled as `0`. -/
def getE (M : Mat) (i j : ℕ) : ℝ := (M.getD i []).getD j 0

/-- Whether `M` is a well-formed `r × c` rectangular matrix. -/
def IsRect (M : Mat) (r c : ℕ) : Prop :=
  M.length = r ∧ ∀ row ∈ M, row.length = c

/- `PAULI` registry from the source (`Y` is the source's real-valued
stand-in for the complex Pauli-Y). -/
namespace PAULI

def I : Mat := [[1, 0], [0, 1]]

def X : Mat := [[0, 1], [1, 0]]

def Y : Mat := [[0, -1], [1, 0]]

def Z : Mat := [[1, 0], [0, -1]]

end PAULI

/-- `GATES.H` — Hadamard. -/
def GATES_H : Mat :=
  [[1 / Real.sqrt 2, 1 / Real.sqrt 2],
   [1 / Real.sqrt 2, -(1 / Real.sqrt 2)]]

/-- `GATES.S` — the source's simplified phase gate. -/
def GATES_S : Mat := [[1, 0], [0, 1]]

/-- `GATES.T` — the source's simplified T gate (`0.707 + 0.707`). -/
def GATES_T : Mat := [[1, 0], [0, 0.707 + 0.707]]

/-- `GATES.RX` — fixed-angle simplified rotation. -/
def GATES_RX : Mat := [[0.707, -0.707], [-0.707, 0.707]]

/-- `GATES.RY` — fixed-angle simplified rotation. -/
def GATES_RY : Mat := [[0.707, -0.707], [0.707, 0.707]]

/-- `GATES.RZ` — fixed-angle simplified rotation. -/
def GATES_RZ : Mat := [[0.707, 0], [0, 0.707]]

/-- `GATES.CNOT`. -/
def GATES_CNOT : Mat :=
  [[1, 0, 0, 0], [0, 1, 0, 0], [0, 0, 0, 1], [0, 0, 1, 0]]

/-- `GATES.CZ`. -/
def GATES_CZ : Mat :=
  [[1, 0, 0, 0], [0, 1, 0, 0], [0, 0, 1, 0], [0, 0, 0, -1]]

/-- `GATES.SWAP`. -/
def GATES_SWAP : Mat :=
  [[1, 0, 0, 0], [0, 0, 1, 0], [0, 1, 0, 0], [0, 0, 0, 1]]

/-- The `GATES` registry, keyed by name; `GATES[name]` is `undefined`
(`none`) for names outside the catalog. -/
def GATES (name : String) : Option Mat :=
  match name with
  | "I" => some PAULI.I
  | "X" => some PAULI.X
  | "Y" => some PAULI.Y
  | "Z" => some PAULI.Z
  | "H" => some GATES_H
  | "S" => some GATES_S
  | "T" => some GATES_T
  | "RX" => some GATES_RX
  | "RY" => some GATES_RY
  | "RZ" => some GATES_RZ
  | "CNOT" => some GATES_CNOT
  | "CZ" => some GATES_CZ
  | "SWAP" => some GATES_SWAP
  | _ => none

/-- `matrixMultiply(A, B)`: `rows = A.length`, `cols = B[0].length`, and
`result[i][j] = Σ_{k < B.length} A[i][k] * B[k][j]` — the source performs
no dimension check, so `k` ranges over `B`'s row count regardless of
`A`'s column count. -/
def matrixMultiply (A B : Mat) : Mat :=
  (List.range A.length).map fun i =>
    (List.range (B.headD []).length).map fun j =>
      ((List.range B.length).map fun k => getE A i k * getE B k j).sum

/-- `tensorProduct(A, B)`.  The source's guard
`!A || !A.length || !A[0] || !B || !B.length || !B[0]` reduces to
`A.length == 0 || B.length == 0`: `null` does not inhabit the embedded
type, and when `A` is nonempty `A[0]` is an array, which is always truthy
in JavaScript (even `[]`), so `!A[0]` adds nothing.  The body writes
`result[i*p+k][j*q+l] = A[i][j] * B[k][l]` for `i<m, j<n, k<p, l<q`,
covering each target index exactly once; it is rendered here with the
inverse index split `r = i*p+k ↦ (r/p, r%p)`, `c = j*q+l ↦ (c/q, c%q)`. -/
def tensorProduct (A B : Mat) : Mat :=
  if A.length = 0 ∨ B.length = 0 then [[1]]
  else
    (List.range (A.length * B.length)).map fun r =>
      (List.range ((A.headD []).length * (B.headD []).length)).map fun c =>
        getE A (r / B.length) (c / (B.headD []).length) *
          getE B (r % B.length) (c % (B.headD []).length)

/-- `trace(M)`: sum of diagonal entries. -/
def trace (matrix : Mat) : ℝ :=
  ((List.range matrix.length).map fun i => getE matrix i i).sum

/-- `matrixTrace(M) = trace(M · M)`. -/
def matrixTrace (matrix : Mat) : ℝ :=
  trace (matrixMultiply matrix matrix)

/-- `createInitialState(n)`: a `2^n × 2^n` zero matrix with `state[0][0]`
then set to `1`. -/
def createInitialState (numQubits : ℕ) : Mat :=
  let dim := 2 ^ numQubits
  let state : Mat := (List.range dim).map fun _ => (List.range dim).map fun _ => 0
  state.set 0 ((state.getD 0 []).set 0 1)

/-- `transpose(M)`: `matrix[0].map((_, c) => matrix.map(row => row[c]))`. -/
def transpose (matrix : Mat) : Mat :=
  (List.range (matrix.headD []).length).map fun colIndex =>
    matrix.map fun row => row.getD colIndex 0

/-- Gate record; `matrix` is optional (registry lookup by `name` when
absent), `qubits` are JS numbers (here `ℤ`, so out-of-range and negative
indices are representable). -/
structure QuantumGate where
  name : String
  matrix : Option Mat
  qubits : List ℤ

/-- Circuit record. -/
structure QuantumCircuit where
  numQubits : ℕ
  gates : List QuantumGate

/-- Bloch-vector record. -/
structure BlochVector where
  x : ℝ
  y : ℝ
  z : ℝ

/-- `DensityMatrix` result record. -/
structure DensityMatrix where
  matrix : Mat
  purity : ℝ
  blochVector : BlochVector

/-- `applySingleQubitGate`: builds the full `2^n × 2^n` operator by
folding `tensorProduct` over qubit positions, placing the gate at
position `qubit` and `PAULI.I` elsewhere, then conjugates:
`U · ρ · transpose(U)`. -/
def applySingleQubitGate (state gateMatrix : Mat) (qubit : ℤ) (numQubits : ℕ) : Mat :=
  let fullGate :=
    (List.range numQubits).foldl
      (fun (acc : Mat) (i : ℕ) =>
        tensorProduct acc (if (i : ℤ) = qubit then gateMatrix else PAULI.I))
      [[1]]
  matrixMultiply (matrixMultiply fullGate state) (transpose fullGate)

/-- `applyTwoQubitGate`: the source's simplified policy — conjugate the
entire composite state by the bare gate matrix, ignoring `qubit1`,
`qubit2` and `numQubits`. -/
def applyTwoQubitGate (state gateMatrix : Mat) (qubit1 qubit2 : ℤ) (numQubits : ℕ) : Mat :=
  matrixMultiply gateMatrix (matrixMultiply state (transpose gateMatrix))

/-- `applyGate`: resolves `gate.matrix || GATES[gate.name]`; unknown gate
with no matrix logs `console.error` (a side effect outside this pure
embedding) and returns the state unchanged; dispatches on the length of
`gate.qubits`, returning the state unchanged when it is neither 1 nor 2. -/
def applyGate (state : Mat) (gate : QuantumGate) (numQubits : ℕ) : Mat :=
  match gate.matrix.orElse (fun _ => GATES gate.name) with
  | none => state
  | some gateMatrix =>
    if gate.qubits.length = 1 then
      applySingleQubitGate state gateMatrix (gate.qubits.getD 0 0) numQubits
    else if gate.qubits.length = 2 then
      applyTwoQubitGate state gateMatrix (gate.qubits.getD 0 0) (gate.qubits.getD 1 0) numQubits
    else state

/-- `calculateBlochVector`: `(Tr(ρ·X), Tr(ρ·Y), Tr(ρ·Z))`; the source's
`x || 0` JavaScript truthiness coercion on a number is the identity
except on `NaN`/`-0` (for a real number: `if x = 0 then 0 else x`). -/
def calculateBlochVector (densityMatrix : Mat) : BlochVector :=
  let x := trace (matrixMultiply densityMatrix PAULI.X)
  let y := trace (matrixMultiply densityMatrix PAULI.Y)
  let z := trace (matrixMultiply densityMatrix PAULI.Z)
  { x := if x = 0 then 0 else x
    y := if y = 0 then 0 else y
    z := if z = 0 then 0 else z }

/-- `partialTrace(fullState, qubitToKeep, numQubits)`: the source's
simplified reduction with `stride = 2^(numQubits - qubitToKeep - 1)`,
summing `fullState[i*stride + 2*stride*k][j*stride + 2*stride*k]` over
`k < 2^numQubits / 2` with a bound guard, then packaging purity
`min(sqrt(matrixTrace(reduced)), 1)` and the Bloch vector.
(`qubitToKeep` is `ℕ`: the driver only calls it with `0 ≤ qubitToKeep <
numQubits`, and the source's `Math.pow` stride is only integral there.) -/
def partialTrace (fullState : Mat) (qubitToKeep numQubits : ℕ) : DensityMatrix :=
  let dim := 2
  let totalDim := 2 ^ numQubits
  let stride := 2 ^ (numQubits - qubitToKeep - 1)
  let reducedMatrix : Mat :=
    (List.range dim).map fun i =>
      (List.range dim).map fun j =>
        (((List.range (totalDim / dim)).map fun k =>
          if i * stride + k * (stride * 2) < totalDim ∧
             j * stride + k * (stride * 2) < totalDim then
            getE fullState (i * stride + k * (stride * 2)) (j * stride + k * (stride * 2))
          else 0)).sum
  let purity := Real.sqrt (matrixTrace reducedMatrix)
  let blochVector := calculateBlochVector reducedMatrix
  { matrix := reducedMatrix
    purity := min purity 1
    blochVector := blochVector }

/-- `simulateCircuit`: fold `applyGate` over the gate list starting from
the initial state, then reduce each qubit `0 .. numQubits-1` in order. -/
def simulateCircuit (circuit : QuantumCircuit) : List DensityMatrix :=
  let state :=
    circuit.gates.foldl (fun s gate => applyGate s gate circuit.numQubits)
      (createInitialState circuit.numQubits)
  (List.range circuit.numQubits).map fun i => partialTrace state i circuit.numQubits

/-- `EXAMPLE_CIRCUITS['Bell State']`: H on qubit 0, then CNOT on (0, 1),
with the registry matrices attached explicitly as in the source. -/
def bellCircuit : QuantumCircuit :=
  { numQubits := 2
    gates :=
      [ { name := "H", matrix := some GATES_H, qubits := [0] },
        { name := "CNOT", matrix := some GATES_CNOT, qubits := [0, 1] } ] }

end QuantumSim

end

/-! ## Helper lemmas -/

noncomputable section

namespace QuantumSim

lemma sqrt2_mul_sqrt2 : Real.sqrt 2 * Real.sqrt 2 = 2 :=
  Real.mul_self_sqrt (by norm_num)

lemma inv_sqrt2_mul : (Real.sqrt 2)⁻¹ * (Real.sqrt 2)⁻¹ = 1 / 2 := by
  rw [← mul_inv, sqrt2_mul_sqrt2]
  norm_num

lemma two_pow_pos (n : ℕ) : 0 < 2 ^ n := Nat.pos_pow_of_pos n (by norm_num)

/-- Entry of a matrix built as a `range`-indexed map of maps. -/
lemma getE_mk (M N : ℕ) (g : ℕ → ℕ → ℝ) (i j : ℕ) (hi : i < M) (hj : j < N) :
    getE ((List.range M).map fun r => (List.range N).map fun c => g r c) i j = g i j := by
  unfold getE
  simp only [List.getD_eq_getElem?_getD]
  rw [List.getElem?_map, List.getElem?_range hi]
  simp [List.getElem?_map, List.getElem?_range hj]

lemma list_sum_range_eq (n : ℕ) (f : ℕ → ℝ) :
    ((List.range n).map f).sum = ∑ k in Finset.range n, f k := by
  induction n with
  | zero => simp
  | succ m ih =>
    rw [List.range_succ, List.map_append, List.sum_append, Finset.sum_range_succ, ih]
    simp

lemma sum_range_delta_mul (m i : ℕ) (hi : i < m) (f : ℕ → ℝ) :
    (((List.range m).map fun k => (if i = k then (1:ℝ) else 0) * f k)).sum = f i := by
  rw [list_sum_range_eq]
  simp only [ite_mul, one_mul, zero_mul]
  rw [Finset.sum_ite_eq (Finset.range m) i f]
  simp [Finset.mem_range.mpr hi]

lemma sum_range_mul_delta (m j : ℕ) (hj : j < m) (f : ℕ → ℝ) :
    (((List.range m).map fun k => f k * (if k = j then (1:ℝ) else 0))).sum = f j := by
  rw [list_sum_range_eq]
  simp only [mul_ite, mul_one, mul_zero]
  rw [Finset.sum_ite_eq' (Finset.range m) j f]
  simp [Finset.mem_range.mpr hj]

/-- A rectangular matrix is recovered from its `getE` entries. -/
lemma rect_reconstruct (M : Mat) (r c : ℕ) (h : IsRect M r c) :
    ((List.range r).map fun i => (List.range c).map fun j => getE M i j) = M := by
  obtain ⟨hr, hc⟩ := h
  apply List.ext_getElem
  · simp [hr]
  · intro i h1 h2
    rw [List.getElem_map, List.getElem_range]
    have hrow : M[i].length = c := hc M[i] (List.getElem_mem h2)
    apply List.ext_getElem
    · simp [hrow]
    · intro j h3 h4
      rw [List.getElem_map, List.getElem_range]
      unfold getE
      simp only [List.getD_eq_getElem?_getD]
      rw [List.getElem?_eq_getElem h2]
      simp [List.getElem?_eq_getElem h4]

end QuantumSim

end

/-! ## Claim C3 -/

noncomputable section

namespace QuantumSim

lemma createInitialState_eq (n : ℕ) :
    createInitialState n =
      (List.range (2 ^ n)).map fun i =>
        (List.range (2 ^ n)).map fun j => if i = 0 ∧ j = 0 then (1:ℝ) else 0 := by
  have hpow : 0 < 2 ^ n := two_pow_pos n
  have hz : (((List.range (2 ^ n)).map fun _ =>
      (List.range (2 ^ n)).map fun _ => (0:ℝ)) : Mat).getD 0 [] =
      (List.range (2 ^ n)).map fun _ => (0:ℝ) := by
    simp only [List.getD_eq_getElem?_getD]
    rw [List.getElem?_map, List.getElem?_range hpow]
    rfl
  unfold createInitialState
  simp only [hz]
  apply List.ext_getElem
  · simp
  · intro i h1 h2
    simp only [List.length_set, List.length_map, List.length_range] at h1
    simp only [List.getElem_set, List.getElem_map, List.getElem_range]
    by_cases h0 : 0 = i
    · subst h0
      simp only [if_pos rfl]
      apply List.ext_getElem
      · simp
      · intro j h3 h4
        simp only [List.length_set, List.length_map, List.length_range] at h3
        simp only [List.getElem_set, List.getElem_map, List.getElem_range]
        by_cases hj0 : 0 = j
        · subst hj0
          simp
        · have hj : ¬ (j = 0) := fun h => hj0 h.symm
          simp [hj, hj0]
    · simp only [if_neg h0]
      have hi : ¬ (i = 0) := fun h => h0 h.symm
      simp [hi]

lemma createInitialState_getE (n i j : ℕ) (hi : i < 2 ^ n) (hj : j < 2 ^ n) :
    getE (createInitialState n) i j = if i = 0 ∧ j = 0 then 1 else 0 := by
  rw [createInitialState_eq]
  exact getE_mk _ _ _ i j hi hj

lemma createInitialState_length (n : ℕ) : (createInitialState n).length = 2 ^ n := by
  rw [createInitialState_eq]
  simp

lemma createInitialState_rows (n : ℕ) :
    ∀ row ∈ createInitialState n, row.length = 2 ^ n := by
  rw [createInitialState_eq]
  intro row hrow
  obtain ⟨i, _, rfl⟩ := List.mem_map.mp hrow
  simp

/-- C3: for every positive `n`, `createInitialState n` is the `2^n × 2^n`
matrix that is zero everywhere except entry `(0,0) = 1` (the outer product
of the all-zeros basis state with itself), and its trace is `1`. -/
theorem createInitialState_is_zero_projector (n i j : ℕ) (hn : 0 < n)
    (hi : i < 2 ^ n) (hj : j < 2 ^ n) :
    (createInitialState n).length = 2 ^ n ∧
    (∀ row ∈ createInitialState n, row.length = 2 ^ n) ∧
    getE (createInitialState n) i j = (if i = 0 ∧ j = 0 then 1 else 0) ∧
    trace (createInitialState n) = 1 := by
  refine ⟨createInitialState_length n, createInitialState_rows n,
    createInitialState_getE n i j hi hj, ?_⟩
  unfold trace
  rw [createInitialState_length n]
  have hcong : ((List.range (2 ^ n)).map fun i => getE (createInitialState n) i i) =
      (List.range (2 ^ n)).map fun i => if i = 0 then (1:ℝ) else 0 := by
    apply List.map_congr_left
    intro a ha
    have halt : a < 2 ^ n := List.mem_range.mp ha
    rw [createInitialState_getE n a a halt halt]
    by_cases h : a = 0 <;> simp [h]
  rw [hcong, list_sum_range_eq]
  rw [Finset.sum_ite_eq' (Finset.range (2 ^ n)) 0 fun _ => (1:ℝ)]
  simp [Finset.mem_range.mpr (two_pow_pos n)]

/-- C3 witness at `n = 2`, `(i, j) = (0, 3)`. -/
theorem createInitialState_is_zero_projector_witness :
    (createInitialState 2).length = 2 ^ 2 ∧
    (∀ row ∈ createInitialState 2, row.length = 2 ^ 2) ∧
    getE (createInitialState 2) 0 3 = (if 0 = 0 ∧ 3 = 0 then 1 else 0) ∧
    trace (createInitialState 2) = 1 :=
  createInitialState_is_zero_projector 2 0 3 (by norm_num) (by norm_num) (by norm_num)

/-! ## Claim C4 -/

/-- C4: the purity field returned by `partialTrace` is exactly
`min (sqrt (Tr (ρ · ρ))) 1` computed from the returned reduced matrix —
the clamped square root of the trace of the matrix squared, not the
textbook purity `Tr (ρ²)` itself. -/
theorem partialTrace_purity_formula (fullState : Mat) (qubitToKeep numQubits : ℕ) :
    (partialTrace fullState qubitToKeep numQubits).purity =
      min (Real.sqrt (trace (matrixMultiply
        (partialTrace fullState qubitToKeep numQubits).matrix
        (partialTrace fullState qubitToKeep numQubits).matrix))) 1 := rfl

/-! ## Claim C5 -/

/-- C5: `calculateBlochVector` returns exactly
`(Tr(ρ·X), Tr(ρ·Y), Tr(ρ·Z))` with the registry's real-valued Pauli
matrices.  The source's `x || 0` truthiness coercion maps the falsy
numbers `NaN`, `0` and `-0` to `0`; in the real-number semantics (which
has no `NaN` or `-0`) it is `if x = 0 then 0 else x`, which is the
identity, so the coercion clause holds vacuously. -/
theorem calculateBlochVector_expectation (densityMatrix : Mat) :
    calculateBlochVector densityMatrix =
      { x := trace (matrixMultiply densityMatrix PAULI.X)
        y := trace (matrixMultiply densityMatrix PAULI.Y)
        z := trace (matrixMultiply densityMatrix PAULI.Z) } := by
  unfold calculateBlochVector
  have hid : ∀ r : ℝ, (if r = 0 then (0:ℝ) else r) = r := by
    intro r
    by_cases h : r = 0 <;> simp [h]
  simp only [hid]

/-! ## Claim C6 -/

/-- C6: a gate whose name is not in the registry and that carries no
explicit matrix leaves the state unchanged (the `console.error` warning is
a logging side effect outside this pure embedding). -/
theorem applyGate_unknown_unchanged (state : Mat) (gate : QuantumGate) (numQubits : ℕ)
    (hmat : gate.matrix = none) (hreg : GATES gate.name = none) :
    applyGate state gate numQubits = state := by
  unfold applyGate
  rw [hmat]
  simp only [Option.orElse]
  rw [hreg]

/-- C6 witness: the gate named `FOO` with no matrix is unknown and leaves
the two-qubit initial state unchanged. -/
theorem applyGate_unknown_unchanged_witness :
    ({ name := "FOO", matrix := none, qubits := [0] } : QuantumGate).matrix = none ∧
    GATES "FOO" = none ∧
    applyGate (createInitialState 2)
      { name := "FOO", matrix := none, qubits := [0] } 2 = createInitialState 2 :=
  ⟨rfl, rfl, applyGate_unknown_unchanged _ _ _ rfl rfl⟩

/-! ## Claim C1 -/

/-- C1: for every gate whose qubit-index list has length 2 and whose
matrix resolves (explicitly or from the registry) to `gm`, `applyGate`
conjugates the entire composite state with the bare gate matrix:
`gm · state · transpose gm`, regardless of `numQubits` and of the
particular two qubit indices — no `2^n × 2^n` operator is built. -/
theorem applyGate_twoQubit_bare_conjugation (state : Mat) (gate : QuantumGate)
    (numQubits : ℕ) (gm : Mat)
    (hres : gate.matrix.orElse (fun _ => GATES gate.name) = some gm)
    (hlen : gate.qubits.length = 2) :
    applyGate state gate numQubits =
      matrixMultiply gm (matrixMultiply state (transpose gm)) := by
  unfold applyGate
  rw [hres]
  simp only [hlen]
  norm_num [applyTwoQubitGate]

/-- C1 witness: a registry-resolved CNOT on qubits (0, 1) over the
two-qubit initial state. -/
theorem applyGate_twoQubit_bare_conjugation_witness :
    ({ name := "CNOT", matrix := none, qubits := [0, 1] } : QuantumGate).matrix.orElse
      (fun _ => GATES "CNOT") = some GATES_CNOT ∧
    ({ name := "CNOT", matrix := none, qubits := [0, 1] } : QuantumGate).qubits.length = 2 ∧
    applyGate (createInitialState 2)
      { name := "CNOT", matrix := none, qubits := [0, 1] } 2 =
      matrixMultiply GATES_CNOT
        (matrixMultiply (createInitialState 2) (transpose GATES_CNOT)) :=
  ⟨rfl, rfl, applyGate_twoQubit_bare_conjugation _ _ _ _ rfl rfl⟩

/-! ## Claim C9 -/

/-- C9: `simulateCircuit` is a pure function — two runs on the identical
circuit give the identical result list — and the result has one entry per
qubit index `0 .. numQubits-1` in ascending order, each entry being the
partial trace of the final folded state at that qubit. -/
theorem simulateCircuit_deterministic_ordered (circuit : QuantumCircuit) :
    simulateCircuit circuit = simulateCircuit circuit ∧
    (simulateCircuit circuit).length = circuit.numQubits ∧
    simulateCircuit circuit =
      (List.range circuit.numQubits).map fun i =>
        partialTrace
          (circuit.gates.foldl (fun s gate => applyGate s gate circuit.numQubits)
            (createInitialState circuit.numQubits))
          i circuit.numQubits :=
  ⟨rfl, by simp [simulateCircuit], rfl⟩

end QuantumSim

end

/-! ## Claim C7 -/

noncomputable section

namespace QuantumSim

lemma headD_length_of_rect (M : Mat) (r c : ℕ) (h : IsRect M r c) (hr : 0 < r) :
    (M.headD []).length = c := by
  obtain ⟨hlen, hrows⟩ := h
  cases M with
  | nil => simp at hlen; omega
  | cons row rest => exact hrows row (List.mem_cons_self row rest)

/-- C7 counterexample: a ragged first operand is NOT rejected —
`tensorProduct [[1],[2,3]] [[1]]` is `[[1],[2]]`, not the `[[1]]`
fallback the claim requires for ragged operands. -/
theorem tensorProduct_ragged_not_rejected :
    tensorProduct [[(1:ℝ)], [2, 3]] [[1]] = [[1], [2]] ∧
    tensorProduct [[(1:ℝ)], [2, 3]] [[1]] ≠ [[1]] := by
  constructor
  · norm_num [tensorProduct, getE, List.range_succ]
  · intro h
    have := congrArg List.length h
    norm_num [tensorProduct] at this

/-- C7 (amended): `tensorProduct` returns the `[[1]]` fallback exactly
when an operand is empty (`null` is not representable in the embedded
type, and ragged operands are NOT rejected — they flow through the
Kronecker loops); for nonempty rectangular operands it returns the
Kronecker product of shape `(rowsA·rowsB) × (colsA·colsB)` with
`result[i·rowsB + k][j·colsB + l] = A[i][j] · B[k][l]`. -/
theorem tensorProduct_fallback_and_kronecker
    (A B : Mat) (ra ca rb cb i j k l : ℕ)
    (hA : IsRect A ra ca) (hB : IsRect B rb cb)
    (hra : 0 < ra) (hrb : 0 < rb)
    (hi : i < ra) (hj : j < ca) (hk : k < rb) (hl : l < cb) :
    tensorProduct ([] : Mat) B = [[1]] ∧
    tensorProduct A ([] : Mat) = [[1]] ∧
    (tensorProduct A B).length = ra * rb ∧
    (∀ row ∈ tensorProduct A B, row.length = ca * cb) ∧
    getE (tensorProduct A B) (i * rb + k) (j * cb + l) = getE A i j * getE B k l := by
  have hAlen : A.length = ra := hA.1
  have hBlen : B.length = rb := hB.1
  have hAhead : (A.headD []).length = ca := headD_length_of_rect A ra ca hA hra
  have hBhead : (B.headD []).length = cb := headD_length_of_rect B rb cb hB hrb
  have hguard : ¬ (A.length = 0 ∨ B.length = 0) := by
    rw [hAlen, hBlen]
    omega
  refine ⟨by simp [tensorProduct], by simp [tensorProduct], ?_, ?_, ?_⟩
  · unfold tensorProduct
    rw [if_neg hguard]
    simp [hAlen, hBlen]
  · unfold tensorProduct
    rw [if_neg hguard]
    intro row hrow
    obtain ⟨r, _, rfl⟩ := List.mem_map.mp hrow
    simp only [List.length_map, List.length_range, hAhead, hBhead]
  · unfold tensorProduct
    rw [if_neg hguard, hAlen, hBlen, hAhead, hBhead]
    have hrow : i * rb + k < ra * rb := by
      calc i * rb + k < i * rb + rb := by omega
      _ = (i + 1) * rb := by ring
      _ ≤ ra * rb := Nat.mul_le_mul_right rb hi
    have hcol : j * cb + l < ca * cb := by
      calc j * cb + l < j * cb + cb := by omega
      _ = (j + 1) * cb := by ring
      _ ≤ ca * cb := Nat.mul_le_mul_right cb hj
    rw [getE_mk _ _ _ _ _ hrow hcol]
    have hdivr : (i * rb + k) / rb = i := by
      rw [Nat.add_comm, Nat.add_mul_div_right _ _ hrb, Nat.div_eq_of_lt hk]
      omega
    have hmodr : (i * rb + k) % rb = k := by
      rw [Nat.add_comm, Nat.add_mul_mod_self_right, Nat.mod_eq_of_lt hk]
    have hdivc : (j * cb + l) / cb = j := by
      have hcb : 0 < cb := by omega
      rw [Nat.add_comm, Nat.add_mul_div_right _ _ hcb, Nat.div_eq_of_lt hl]
      omega
    have hmodc : (j * cb + l) % cb = l := by
      rw [Nat.add_comm, Nat.add_mul_mod_self_right, Nat.mod_eq_of_lt hl]
    rw [hdivr, hmodr, hdivc, hmodc]

/-- C7 witness: `[[1,2]] ⊗ [[3],[4]]` at all four index combinations of
the entry formula's instantiation `(i,j,k,l) = (0,1,1,0)`. -/
theorem tensorProduct_fallback_and_kronecker_witness :
    tensorProduct ([] : Mat) [[(3:ℝ)], [4]] = [[1]] ∧
    tensorProduct [[(1:ℝ), 2]] ([] : Mat) = [[1]] ∧
    (tensorProduct [[(1:ℝ), 2]] [[3], [4]]).length = 1 * 2 ∧
    (∀ row ∈ tensorProduct [[(1:ℝ), 2]] [[3], [4]], row.length = 2 * 1) ∧
    getE (tensorProduct [[(1:ℝ), 2]] [[3], [4]]) (0 * 2 + 1) (1 * 1 + 0) =
      getE [[(1:ℝ), 2]] 0 1 * getE [[(3:ℝ)], [4]] 1 0 :=
  tensorProduct_fallback_and_kronecker [[(1:ℝ), 2]] [[3], [4]] 1 2 2 1 0 1 1 0
    ⟨rfl, by intro row hrow; simp at hrow; subst hrow; rfl⟩
    ⟨rfl, by intro row hrow; simp at hrow; rcases hrow with h | h <;> subst h <;> rfl⟩
    (by norm_num) (by norm_num) (by norm_num) (by norm_num) (by norm_num) (by norm_num)

/-! ## Claim C8 -/

/-- C8 counterexample: `A = [[1,2]]` has 2 columns, `B = [[3]]` has 1
row, yet `matrixMultiply A B` does not fail — it returns the perfectly
well-formed numeric `1×1` matrix `[[3]]` (the product of `A`'s first
column with `B`). -/
theorem matrixMultiply_mismatch_wellformed :
    (([[(1:ℝ), 2]] : Mat).headD []).length = 2 ∧
    ([[(3:ℝ)]] : Mat).length = 1 ∧
    matrixMultiply [[(1:ℝ), 2]] [[3]] = [[3]] := by
  refine ⟨rfl, rfl, ?_⟩
  norm_num [matrixMultiply, getE, List.range_succ]

/-- C8 (amended): `matrixMultiply` performs no dimension check.  For any
`A` and any nonempty `B`, it returns an `A.rows × B[0].cols` matrix whose
`(i,j)` entry is `Σ_{k < B.rows} A[i][k] · B[k][j]` (in this model an
out-of-range `A[i][k]` reads 0 where the source would produce `NaN`).
When `A.cols = B.rows` this is the standard matrix product of shape
`A.rows × B.cols`; when `B.rows < A.cols` the result is a well-formed
numeric matrix — the product of `A`'s first `B.rows` columns with `B` —
not a failure. -/
theorem matrixMultiply_shape_and_entries
    (A B : Mat) (ra ca rb cb i j : ℕ)
    (hA : IsRect A ra ca) (hB : IsRect B rb cb) (hrb : 0 < rb)
    (hi : i < ra) (hj : j < cb) :
    (matrixMultiply A B).length = ra ∧
    (∀ row ∈ matrixMultiply A B, row.length = cb) ∧
    getE (matrixMultiply A B) i j =
      ((List.range rb).map fun k => getE A i k * getE B k j).sum := by
  have hAlen : A.length = ra := hA.1
  have hBlen : B.length = rb := hB.1
  have hBhead : (B.headD []).length = cb := headD_length_of_rect B rb cb hB hrb
  refine ⟨?_, ?_, ?_⟩
  · unfold matrixMultiply
    simp [hAlen]
  · unfold matrixMultiply
    intro row hrow
    obtain ⟨r, _, rfl⟩ := List.mem_map.mp hrow
    simp only [List.length_map, List.length_range, hBhead]
  · unfold matrixMultiply
    rw [hAlen, hBlen, hBhead]
    exact getE_mk _ _ _ _ _ hi hj

/-- C8 witness: conformant `2×2` identity times `2×1` column gives the
standard product shape and entry. -/
theorem matrixMultiply_shape_and_entries_witness :
    (matrixMultiply [[(1:ℝ), 0], [0, 1]] [[3], [4]]).length = 2 ∧
    (∀ row ∈ matrixMultiply [[(1:ℝ), 0], [0, 1]] [[3], [4]], row.length = 1) ∧
    getE (matrixMultiply [[(1:ℝ), 0], [0, 1]] [[3], [4]]) 0 0 =
      ((List.range 2).map fun k =>
        getE [[(1:ℝ), 0], [0, 1]] 0 k * getE [[(3:ℝ)], [4]] k 0).sum :=
  matrixMultiply_shape_and_entries [[(1:ℝ), 0], [0, 1]] [[3], [4]] 2 2 2 1 0 0
    ⟨rfl, by intro row hrow; simp at hrow; rcases hrow with h | h <;> subst h <;> rfl⟩
    ⟨rfl, by intro row hrow; simp at hrow; rcases hrow with h | h <;> subst h <;> rfl⟩
    (by norm_num) (by norm_num) (by norm_num)

end QuantumSim

end

/-! ## Claim C10 -/

noncomputable section

namespace QuantumSim

/-- The `m × m` identity matrix (verification-side definition, used only
to state what the single-qubit tensor expansion builds when no position
matches the requested qubit). -/
def idMat (m : ℕ) : Mat :=
  (List.range m).map fun i => (List.range m).map fun j => if i = j then 1 else 0

lemma idMat_rect (m : ℕ) : IsRect (idMat m) m m := by
  constructor
  · simp [idMat]
  · intro row hrow
    obtain ⟨i, _, rfl⟩ := List.mem_map.mp hrow
    simp

lemma getE_idMat (m i j : ℕ) (hi : i < m) (hj : j < m) :
    getE (idMat m) i j = if i = j then 1 else 0 :=
  getE_mk m m _ i j hi hj

lemma getE_pauliI (a b : ℕ) (ha : a < 2) (hb : b < 2) :
    getE PAULI.I a b = if a = b then 1 else 0 := by
  interval_cases a <;> interval_cases b <;> simp [PAULI.I, getE]

lemma idMat_headD (m : ℕ) (hm : 0 < m) : ((idMat m).headD []).length = m :=
  headD_length_of_rect (idMat m) m m (idMat_rect m) hm

lemma tensorProduct_idMat_pauliI (m : ℕ) (hm : 0 < m) :
    tensorProduct (idMat m) PAULI.I = idMat (m * 2) := by
  have hguard : ¬ ((idMat m).length = 0 ∨ (PAULI.I : Mat).length = 0) := by
    simp [idMat, PAULI.I]
    omega
  unfold tensorProduct
  rw [if_neg hguard]
  have hIlen : (PAULI.I : Mat).length = 2 := rfl
  have hIhead : ((PAULI.I : Mat).headD []).length = 2 := rfl
  rw [(idMat_rect m).1, hIlen, idMat_headD m hm, hIhead]
  unfold idMat
  apply List.map_congr_left
  intro r hr
  have hrlt : r < m * 2 := List.mem_range.mp hr
  apply List.map_congr_left
  intro c hc
  have hclt : c < m * 2 := List.mem_range.mp hc
  have hrd : r / 2 < m := Nat.div_lt_of_lt_mul (by omega)
  have hcd : c / 2 < m := Nat.div_lt_of_lt_mul (by omega)
  rw [show ((List.range m).map fun i => (List.range m).map fun j =>
      if i = j then (1:ℝ) else 0) = idMat m from rfl]
  rw [getE_idMat m _ _ hrd hcd,
    getE_pauliI _ _ (Nat.mod_lt r (by omega)) (Nat.mod_lt c (by omega))]
  have hr2 := Nat.div_add_mod r 2
  have hc2 := Nat.div_add_mod c 2
  by_cases hdm : r / 2 = c / 2 ∧ r % 2 = c % 2
  · have : r = c := by omega
    simp [hdm.1, hdm.2, this]
  · have : r ≠ c := by
      intro h
      subst h
      exact hdm ⟨rfl, rfl⟩
    rcases Decidable.not_and_iff_or_not.mp hdm with h | h <;> simp [h, this]

lemma foldl_tensor_outside (numQubits : ℕ) (gm : Mat) (q : ℤ)
    (hq : q < 0 ∨ (numQubits : ℤ) ≤ q) :
    (List.range numQubits).foldl
      (fun (acc : Mat) (i : ℕ) => tensorProduct acc (if (i : ℤ) = q then gm else PAULI.I))
      [[1]] = idMat (2 ^ numQubits) := by
  induction numQubits with
  | zero =>
    rfl
  | succ n ih =>
    have hq' : q < 0 ∨ (n : ℤ) ≤ q := by
      rcases hq with h | h
      · exact Or.inl h
      · right
        push_cast at h ⊢
        omega
    rw [List.range_succ, List.foldl_append, List.foldl_cons, List.foldl_nil, ih hq']
    have hne : ¬ ((n : ℤ) = q) := by
      rcases hq with h | h
      · intro hh
        omega
      · intro hh
        push_cast at h
        omega
    rw [if_neg hne, tensorProduct_idMat_pauliI (2 ^ n) (two_pow_pos n)]
    congr 1

lemma transpose_idMat (m : ℕ) (hm : 0 < m) : transpose (idMat m) = idMat m := by
  unfold transpose
  rw [idMat_headD m hm]
  unfold idMat
  apply List.map_congr_left
  intro c hc
  have hclt : c < m := List.mem_range.mp hc
  rw [List.map_map]
  apply List.map_congr_left
  intro i hi
  have hilt : i < m := List.mem_range.mp hi
  simp only [Function.comp]
  have : (((List.range m).map fun j => if i = j then (1:ℝ) else 0)).getD c 0 =
      if i = c then 1 else 0 := by
    simp only [List.getD_eq_getElem?_getD]
    rw [List.getElem?_map, List.getElem?_range hclt]
    rfl
  rw [this]
  by_cases h : i = c
  · simp [h]
  · have : ¬ (c = i) := fun hh => h hh.symm
    simp [h, this]

lemma matrixMultiply_idMat_left (M : Mat) (m c : ℕ) (hM : IsRect M m c) (hm : 0 < m) :
    matrixMultiply (idMat m) M = M := by
  unfold matrixMultiply
  rw [(idMat_rect m).1, hM.1]
  have hhead : (M.headD []).length = c := headD_length_of_rect M m c hM hm
  rw [hhead]
  have hstep : ∀ i < m, ∀ j < c,
      ((List.range m).map fun k => getE (idMat m) i k * getE M k j).sum = getE M i j := by
    intro i hi j hj
    have hcong : ((List.range m).map fun k => getE (idMat m) i k * getE M k j) =
        (List.range m).map fun k => (if i = k then (1:ℝ) else 0) * getE M k j := by
      apply List.map_congr_left
      intro k hk
      rw [getE_idMat m i k hi (List.mem_range.mp hk)]
    rw [hcong, sum_range_delta_mul m i hi]
  have : ((List.range m).map fun i => (List.range c).map fun j =>
      ((List.range m).map fun k => getE (idMat m) i k * getE M k j).sum) =
      (List.range m).map fun i => (List.range c).map fun j => getE M i j := by
    apply List.map_congr_left
    intro i hi
    apply List.map_congr_left
    intro j hj
    exact hstep i (List.mem_range.mp hi) j (List.mem_range.mp hj)
  rw [this, rect_reconstruct M m c hM]

lemma matrixMultiply_idMat_right (M : Mat) (m c : ℕ) (hM : IsRect M m c) (hc : 0 < c) :
    matrixMultiply M (idMat c) = M := by
  unfold matrixMultiply
  rw [hM.1, (idMat_rect c).1, idMat_headD c hc]
  have hstep : ∀ i < m, ∀ j < c,
      ((List.range c).map fun k => getE M i k * getE (idMat c) k j).sum = getE M i j := by
    intro i hi j hj
    have hcong : ((List.range c).map fun k => getE M i k * getE (idMat c) k j) =
        (List.range c).map fun k => getE M i k * (if k = j then (1:ℝ) else 0) := by
      apply List.map_congr_left
      intro k hk
      rw [getE_idMat c k j (List.mem_range.mp hk) hj]
    rw [hcong, sum_range_mul_delta c j hj]
  have : ((List.range m).map fun i => (List.range c).map fun j =>
      ((List.range c).map fun k => getE M i k * getE (idMat c) k j).sum) =
      (List.range m).map fun i => (List.range c).map fun j => getE M i j := by
    apply List.map_congr_left
    intro i hi
    apply List.map_congr_left
    intro j hj
    exact hstep i (List.mem_range.mp hi) j (List.mem_range.mp hj)
  rw [this, rect_reconstruct M m c hM]

/-- C10: a single-qubit gate addressed to a qubit index outside
`[0, numQubits)` expands to the full `2^n × 2^n` identity (no tensor
position matches), so `applyGate` returns the rectangular input state
unchanged. -/
theorem applyGate_outside_qubit_identity
    (state : Mat) (gate : QuantumGate) (numQubits : ℕ) (gm : Mat) (q : ℤ)
    (hn : 1 ≤ numQubits)
    (hres : gate.matrix.orElse (fun _ => GATES gate.name) = some gm)
    (hqb : gate.qubits = [q])
    (hq : q < 0 ∨ (numQubits : ℤ) ≤ q)
    (hst : IsRect state (2 ^ numQubits) (2 ^ numQubits)) :
    ((List.range numQubits).foldl
      (fun (acc : Mat) (i : ℕ) => tensorProduct acc (if (i : ℤ) = q then gm else PAULI.I))
      [[1]] = idMat (2 ^ numQubits)) ∧
    applyGate state gate numQubits = state := by
  refine ⟨foldl_tensor_outside numQubits gm q hq, ?_⟩
  unfold applyGate
  rw [hres]
  simp only [hqb, List.length_cons, List.length_nil]
  norm_num
  unfold applySingleQubitGate
  simp only [List.getD_cons_zero]
  rw [foldl_tensor_outside numQubits gm q hq]
  rw [matrixMultiply_idMat_left state _ _ hst (two_pow_pos numQubits),
    transpose_idMat _ (two_pow_pos numQubits),
    matrixMultiply_idMat_right state _ _ hst (two_pow_pos numQubits)]

/-- C10 witness: `X` aimed at qubit `5` of a 1-qubit state. -/
theorem applyGate_outside_qubit_identity_witness :
    1 ≤ 1 ∧
    ({ name := "X", matrix := some PAULI.X, qubits := [5] } : QuantumGate).matrix.orElse
      (fun _ => GATES "X") = some PAULI.X ∧
    ((5 : ℤ) < 0 ∨ ((1 : ℕ) : ℤ) ≤ 5) ∧
    IsRect [[(1:ℝ), 0], [0, 0]] (2 ^ 1) (2 ^ 1) ∧
    ((List.range 1).foldl
      (fun (acc : Mat) (i : ℕ) => tensorProduct acc (if (i : ℤ) = (5:ℤ) then PAULI.X else PAULI.I))
      [[1]] = idMat (2 ^ 1)) ∧
    applyGate [[(1:ℝ), 0], [0, 0]]
      { name := "X", matrix := some PAULI.X, qubits := [5] } 1 = [[(1:ℝ), 0], [0, 0]] := by
  have hst : IsRect [[(1:ℝ), 0], [0, 0]] (2 ^ 1) (2 ^ 1) := by
    refine ⟨rfl, ?_⟩
    intro row hrow
    simp at hrow
    rcases hrow with h | h <;> subst h <;> rfl
  have h := applyGate_outside_qubit_identity [[(1:ℝ), 0], [0, 0]]
    { name := "X", matrix := some PAULI.X, qubits := [5] } 1 PAULI.X 5
    (by norm_num) rfl rfl (by norm_num) hst
  exact ⟨by norm_num, rfl, by norm_num, hst, h.1, h.2⟩

end QuantumSim

end

/-! ## Claim C2 -/

noncomputable section

namespace QuantumSim

/-- Full operator built for H on qubit 0 of 2 qubits: `H ⊗ I`. -/
def bellHfull : Mat :=
  [[1/Real.sqrt 2, 0, 1/Real.sqrt 2, 0],
   [0, 1/Real.sqrt 2, 0, 1/Real.sqrt 2],
   [1/Real.sqrt 2, 0, -(1/Real.sqrt 2), 0],
   [0, 1/Real.sqrt 2, 0, -(1/Real.sqrt 2)]]

/-- Composite state after H on qubit 0. -/
def bellRho1 : Mat := [[1/2, 0, 1/2, 0], [0,0,0,0], [1/2, 0, 1/2, 0], [0,0,0,0]]

/-- Composite state after the CNOT conjugation (the Bell state). -/
def bellRho2 : Mat := [[1/2, 0, 0, 1/2], [0,0,0,0], [0,0,0,0], [1/2, 0, 0, 1/2]]

lemma bell_tp_one_H : tensorProduct [[1]] GATES_H = GATES_H := by
  norm_num [tensorProduct, GATES_H, getE, List.range_succ]

lemma bell_tp_H_I : tensorProduct GATES_H PAULI.I = bellHfull := by
  norm_num [tensorProduct, GATES_H, PAULI.I, bellHfull, getE, List.range_succ]

lemma bell_fullGate :
    (List.range 2).foldl
      (fun (acc : Mat) (i : ℕ) =>
        tensorProduct acc (if (i : ℤ) = (0 : ℤ) then GATES_H else PAULI.I))
      [[1]] = bellHfull := by
  have hr : List.range 2 = [0, 1] := rfl
  rw [hr, List.foldl_cons, List.foldl_cons, List.foldl_nil]
  norm_num [bell_tp_one_H, bell_tp_H_I]

lemma bell_initial : createInitialState 2 = [[1,0,0,0],[0,0,0,0],[0,0,0,0],[0,0,0,0]] := by
  rw [createInitialState_eq]
  norm_num [List.range_succ]

lemma bell_mul1 : matrixMultiply bellHfull [[1,0,0,0],[0,0,0,0],[0,0,0,0],[0,0,0,0]] =
    [[1/Real.sqrt 2, 0, 0, 0], [0,0,0,0], [1/Real.sqrt 2, 0, 0, 0], [0,0,0,0]] := by
  norm_num [matrixMultiply, bellHfull, getE, List.range_succ]

lemma bell_transpose : transpose bellHfull = bellHfull := by
  norm_num [transpose, bellHfull, List.range_succ]

lemma bell_mul2 : matrixMultiply
    [[1/Real.sqrt 2, 0, 0, 0], [0,0,0,0], [1/Real.sqrt 2, 0, 0, 0], [0,0,0,0]]
    bellHfull = bellRho1 := by
  norm_num [matrixMultiply, bellHfull, bellRho1, getE, List.range_succ, inv_sqrt2_mul]

lemma bell_step1 :
    applyGate (createInitialState 2)
      { name := "H", matrix := some GATES_H, qubits := [0] } 2 = bellRho1 := by
  show applySingleQubitGate (createInitialState 2) GATES_H 0 2 = bellRho1
  unfold applySingleQubitGate
  simp only [bell_fullGate, bell_initial]
  rw [bell_mul1, bell_transpose, bell_mul2]

lemma bell_step2 :
    applyGate bellRho1 { name := "CNOT", matrix := some GATES_CNOT, qubits := [0, 1] } 2 =
      bellRho2 := by
  show applyTwoQubitGate bellRho1 GATES_CNOT 0 1 2 = bellRho2
  unfold applyTwoQubitGate
  norm_num [matrixMultiply, transpose, GATES_CNOT, bellRho1, bellRho2, getE, List.range_succ]

lemma bell_simulate :
    simulateCircuit bellCircuit = [partialTrace bellRho2 0 2, partialTrace bellRho2 1 2] := by
  unfold simulateCircuit bellCircuit
  simp only [List.foldl_cons, List.foldl_nil]
  rw [bell_step1, bell_step2]
  rfl

lemma bell_reduced0 : (partialTrace bellRho2 0 2).matrix = [[1/2, 0], [0, 0]] := by
  norm_num [partialTrace, bellRho2, getE, List.range_succ]

lemma bell_reduced1 : (partialTrace bellRho2 1 2).matrix = [[1/2, 0], [0, 1/2]] := by
  norm_num [partialTrace, bellRho2, getE, List.range_succ]

lemma bell_purity0 : (partialTrace bellRho2 0 2).purity = 1/2 := by
  have hs : Real.sqrt 4 = 2 := by
    rw [show (4 : ℝ) = 2^2 by norm_num, Real.sqrt_sq (by norm_num)]
  norm_num [partialTrace, bellRho2, getE, List.range_succ, matrixTrace, matrixMultiply,
    trace, hs]

lemma bell_purity1 : (partialTrace bellRho2 1 2).purity = Real.sqrt (1/2) := by
  have h1 : (1:ℝ) ≤ Real.sqrt 2 := by
    rw [show (1:ℝ) = Real.sqrt 1 by simp]
    exact Real.sqrt_le_sqrt (by norm_num)
  norm_num [partialTrace, bellRho2, getE, List.range_succ, matrixTrace, matrixMultiply, trace]
  exact inv_le_one_of_one_le₀ h1

/-- C2 counterexample: in the Bell circuit the reported purity of qubit 1
is `sqrt (1/2) ≈ 0.707`, which is not within `0.2` of `0.5` — the claim
that BOTH qubits report purity ≈ 0.5 fails on qubit 1 (the code reports
`sqrt (Tr ρ²)`, and qubit 1's reduction is the maximally mixed `ρ` with
`Tr ρ² = 1/2`). -/
theorem bellCircuit_qubit1_purity_not_half :
    ((simulateCircuit bellCircuit).getD 1 ⟨[], 0, ⟨0, 0, 0⟩⟩).purity = Real.sqrt (1/2) ∧
    ¬ |((simulateCircuit bellCircuit).getD 1 ⟨[], 0, ⟨0, 0, 0⟩⟩).purity - 0.5| < 0.2 := by
  have hp : ((simulateCircuit bellCircuit).getD 1 ⟨[], 0, ⟨0, 0, 0⟩⟩).purity =
      Real.sqrt (1/2) := by
    rw [bell_simulate]
    simp only [List.getD_cons_succ, List.getD_cons_zero]
    exact bell_purity1
  refine ⟨hp, ?_⟩
  rw [hp]
  have hgt : (0.7 : ℝ) < Real.sqrt (1/2) := by
    rw [show (0.7 : ℝ) = Real.sqrt (0.49) by
      rw [show (0.49 : ℝ) = 0.7^2 by norm_num, Real.sqrt_sq (by norm_num)]]
    exact Real.sqrt_lt_sqrt (by norm_num) (by norm_num)
  intro habs
  rw [abs_lt] at habs
  have := habs.2
  norm_num at this
  linarith

/-- C2 (amended): in the Bell circuit the reported purity of qubit 0 is
exactly `0.5`, but the reported purity of qubit 1 is `sqrt (1/2) ≈ 0.707`;
only qubit 0 matches "≈ 0.5", because purity is reported as the clamped
square root of `Tr(ρ²)` and the code's qubit-0 reduction is the
non-normalized slice `[[1/2,0],[0,0]]` while qubit 1's is the maximally
mixed `[[1/2,0],[0,1/2]]`. -/
theorem bellCircuit_purities :
    (simulateCircuit bellCircuit).map DensityMatrix.purity = [1/2, Real.sqrt (1/2)] := by
  rw [bell_simulate]
  simp only [List.map_cons, List.map_nil]
  rw [bell_purity0, bell_purity1]

end QuantumSim

end
